import Mathlib

/-!
# Verification of the rstube subprocess-driven progress-tracking runner

Shallow embedding of `src/main.rs` (the `DownloaderApp` download task and
the `parse_progress` helper).  Rust strings are modelled as `List Char`
(the byte indices Rust's `find`/`rfind` return always fall on char
boundaries here, since the needles `'%'` and `' '` are ASCII, so
char-level indexing yields the same substrings).  Rust `f32` values are
idealised as exact rationals `ℚ`: a decimal literal that `f32::from_str`
accepts is read at its exact decimal value.  The `"inf"`/`"infinity"`/
`"nan"` spellings that Rust's float grammar also accepts have no rational
counterpart and are outside this idealisation (they are mapped to `none`;
they cannot occur in a percentage token).  Rational values are assembled
with `Rat.divInt` over integer arithmetic so that every definition
evaluates inside the kernel.
-/

/-- First index of character `c` in the list, as in Rust `str::find(char)`. -/
def findChar (c : Char) : List Char → Option Nat
  | [] => none
  | x :: xs => if x = c then some 0 else (findChar c xs).map (fun i => i + 1)

/-- Last index of character `c` in the list, as in Rust `str::rfind(char)`. -/
def rfindChar (c : Char) : List Char → Option Nat
  | [] => none
  | x :: xs =>
    match rfindChar c xs with
    | some i => some (i + 1)
    | none => if x = c then some 0 else none

/-- Last index of a whitespace character; used only by the spec-worded
variant of the parser (`rfind` over a whitespace class instead of `' '`). -/
def rfindWhite : List Char → Option Nat
  | [] => none
  | x :: xs =>
    match rfindWhite xs with
    | some i => some (i + 1)
    | none => if x.isWhitespace then some 0 else none

/-- Rust `str::trim`: strip leading and trailing whitespace. -/
def trim (l : List Char) : List Char :=
  ((l.dropWhile Char.isWhitespace).reverse.dropWhile Char.isWhitespace).reverse

/-- Value of a digit string read in base 10. -/
def digitsToNat (l : List Char) : Nat :=
  l.foldl (fun a c => 10 * a + (c.toNat - '0'.toNat)) 0

/-- The optional exponent suffix of Rust's float grammar: the empty string
(exponent 0), or `(e|E) sign? digit+`; anything else is a parse error. -/
def parseExpSuffix (l : List Char) : Option Int :=
  match l with
  | [] => some 0
  | c :: rest =>
    if c = 'e' ∨ c = 'E' then
      let sr : Int × List Char :=
        match rest with
        | '+' :: r => (1, r)
        | '-' :: r => (-1, r)
        | r => (1, r)
      let ds := sr.2.takeWhile Char.isDigit
      let r2 := sr.2.dropWhile Char.isDigit
      if ds = [] ∨ r2 ≠ [] then none
      else some (sr.1 * (digitsToNat ds : Int))
    else none

/-- Exact value of a parsed decimal: sign `s`, integer digits `ip`,
fractional digits `fp`, decimal exponent `e`; that is
`s * (ip.fp) * 10 ^ e` as a rational. -/
def decimalValue (s : Int) (ip fp : List Char) (e : Int) : ℚ :=
  let mant : Nat := digitsToNat ip * 10 ^ fp.length + digitsToNat fp
  let shift : Int := e - fp.length
  if 0 ≤ shift then Rat.divInt (s * mant * (10 : Int) ^ shift.toNat) 1
  else Rat.divInt (s * mant) ((10 : Int) ^ (-shift).toNat)

/-- Rust `f32::from_str` on the decimal fragment of its grammar
(`sign? (digit+ | digit+ . digit* | digit* . digit+) exp?`), idealised to
the exact rational value of the literal. -/
def parseF32 (l : List Char) : Option ℚ :=
  let sl : Int × List Char :=
    match l with
    | '+' :: r => (1, r)
    | '-' :: r => (-1, r)
    | r => (1, r)
  let ip := sl.2.takeWhile Char.isDigit
  let r1 := sl.2.dropWhile Char.isDigit
  match r1 with
  | '.' :: r2 =>
    let fp := r2.takeWhile Char.isDigit
    let r3 := r2.dropWhile Char.isDigit
    if ip = [] ∧ fp = [] then none
    else (parseExpSuffix r3).map (decimalValue sl.1 ip fp)
  | _ =>
    if ip = [] then none
    else (parseExpSuffix r1).map (decimalValue sl.1 ip [])

/-- Division by 100 (`p / 100.0` in the source), written on the canonical
`num/den` representation so that it evaluates in the kernel;
`divByHundred_eq` below shows it is exactly `p / 100`. -/
def divByHundred (p : ℚ) : ℚ :=
  Rat.divInt p.num ((p.den : Int) * 100)

/-- `fn parse_progress(line: &str) -> Option<f32>` from `src/main.rs`:
find the first `'%'`; `rfind(' ')` in the text before it (the `?` operator
propagates `None` when there is no space); trim and float-parse the slice
between the space and the `'%'`; divide by 100. -/
def parse_progress (line : List Char) : Option ℚ :=
  match findChar '%' line with
  | some idx =>
    match rfindChar ' ' (line.take idx) with
    | none => none
    | some s =>
      let start := s + 1
      match parseF32 (trim ((line.take idx).drop start)) with
      | some p => some (divByHundred p)
      | none => none
  | none => none

/-- The candidate token `parse_progress` extracts from a line: the slice
between the last space before the first `'%'` and that `'%'`. -/
def candidateTok (line : List Char) : Option (List Char) :=
  match findChar '%' line with
  | none => none
  | some idx => (rfindChar ' ' (line.take idx)).map (fun s => (line.take idx).drop (s + 1))

/-- The parser as the spec's §4.1 words describe it: locate the **last**
`'%'`, scan back to the nearest preceding **whitespace** boundary, parse
the substring in between, divide by 100.  Written only for comparison
against the implementation `parse_progress`; it is not the code's
algorithm. -/
def parse_progress_specLast (line : List Char) : Option ℚ :=
  match rfindChar '%' line with
  | none => none
  | some idx =>
    match rfindWhite (line.take idx) with
    | none => none
    | some s => (parseF32 ((line.take idx).drop (s + 1))).map divByHundred

/-! ## Job-runner state model

The download task of `DownloaderApp::update` (the `⬇ Download` click
handler and the spawned async block), embedded as explicit state passing.
`AppState` collects the three `Arc<Mutex<_>>` cells `status`, `progress`,
`history`; the subprocess is an environment parameter `SpawnOutcome`
(launch error, or the stdout lines followed by the exit result).  Output
lines are processed strictly sequentially, as the single `while let` loop
does. -/

/-- `enum Format { BestVideo, AudioOnly }`. -/
inductive Format
  | BestVideo
  | AudioOnly
deriving DecidableEq

/-- `struct HistoryItem { url, format, status }`. -/
structure HistoryItem where
  url : String
  format : String
  status : String
deriving DecidableEq

/-- The shared mutable cells of `DownloaderApp`: `status`, `progress`,
`history`. -/
structure AppState where
  status : String
  progress : ℚ
  history : List HistoryItem
deriving DecidableEq

/-- `DownloaderApp::default()`: status `"Idle"`, progress `0.0`, empty
history. -/
def defaultApp : AppState :=
  { status := "Idle", progress := 0, history := [] }

/-- The format label pushed into history:
`match format { BestVideo => "Video", AudioOnly => "MP3" }`. -/
def formatLabel : Format → String
  | .BestVideo => "Video"
  | .AudioOnly => "MP3"

/-- The environment's answer to `cmd.spawn()` and the subsequent reads:
a launch error, or the list of stdout lines together with the final
`child.wait()` success bit (`wait` errors are already folded to `false`
by the source's `unwrap_or(false)`). -/
inductive SpawnOutcome
  | err
  | ok (lines : List String) (success : Bool)

/-- Round half to even, as Rust's `{:.0}` float formatting does. -/
def roundHalfEven (q : ℚ) : Int :=
  let f := ⌊q⌋
  if q - f < Rat.divInt 1 2 then f
  else if Rat.divInt 1 2 < q - f then f + 1
  else if f % 2 = 0 then f else f + 1

/-- One iteration of the output loop:
`if let Some(p) = parse_progress(&line) { *progress = p; *status = format!("Downloading… {:.0}%", p * 100.0); }`.
`p * 100.0` is computed on the `num`/`den` representation so the
definition evaluates in the kernel. -/
def processLine (st : AppState) (line : String) : AppState :=
  match parse_progress line.data with
  | some p =>
    { st with
      progress := p
      status := "Downloading… " ++ toString (roundHalfEven (Rat.divInt (p.num * 100) p.den)) ++ "%" }
  | none => st

/-- The two writes performed before spawning the task:
`*status = "Starting download…"; *progress = 0.0;`. -/
def startReset (st : AppState) : AppState :=
  { st with status := "Starting download…", progress := 0 }

/-- The completion writes: push exactly one `HistoryItem`, then set the
terminal status message. -/
def finishJob (url : String) (fmt : Format) (success : Bool) (st : AppState) : AppState :=
  let pushed :=
    { st with
      history := st.history ++
        [({ url := url, format := formatLabel fmt,
            status := if success then "Completed" else "Failed" } : HistoryItem)] }
  { pushed with
    status := if success then "✅ Download completed" else "❌ Download failed" }

/-- The whole click-handler job: reset the shared state, then either fail
the launch silently (`Err(_) => { *status = "Failed to start yt-dlp"; return; }`)
or stream every line through `processLine` and finish with history push
and terminal status. -/
def runJob (st : AppState) (url : String) (fmt : Format) (res : SpawnOutcome) : AppState :=
  let st1 := startReset st
  match res with
  | .err => { st1 with status := "Failed to start yt-dlp" }
  | .ok lines success => finishJob url fmt success (lines.foldl processLine st1)

/-- The argument list built for the subprocess, in the source's push
order: `--newline`; `-P dir` if a destination was chosen; the
format-specific flags; the URL last.  (`Command::new("yt-dlp")` holds the
program name itself; this is its argument vector.) -/
def buildArgs (url : String) (fmt : Format) (dir : Option String) : List String :=
  let args := ["--newline"]
  let args :=
    match dir with
    | some d => args ++ ["-P", d]
    | none => args
  let args :=
    match fmt with
    | .BestVideo => args ++ ["-f", "bestvideo+bestaudio/best", "--merge-output-format", "mp4"]
    | .AudioOnly => args ++ ["-x", "--audio-format", "mp3"]
  args ++ [url]

/-! ## Helper lemmas -/

theorem findChar_eq_none (c : Char) (l : List Char) (h : c ∉ l) :
    findChar c l = none := by
  induction l with
  | nil => rfl
  | cons x xs ih =>
    rw [List.mem_cons, not_or] at h
    simp [findChar, Ne.symm h.1, ih h.2]

theorem findChar_append (c : Char) (pre rest : List Char) (h : c ∉ pre) :
    findChar c (pre ++ c :: rest) = some pre.length := by
  induction pre with
  | nil => simp [findChar]
  | cons x xs ih =>
    rw [List.mem_cons, not_or] at h
    simp [findChar, Ne.symm h.1, ih h.2]

theorem rfindChar_eq_none (c : Char) (l : List Char) (h : c ∉ l) :
    rfindChar c l = none := by
  induction l with
  | nil => rfl
  | cons x xs ih =>
    rw [List.mem_cons, not_or] at h
    simp [rfindChar, ih h.2, Ne.symm h.1]

theorem rfindChar_append (c : Char) (a b : List Char) (h : c ∉ b) :
    rfindChar c (a ++ c :: b) = some a.length := by
  induction a with
  | nil => simp [rfindChar, rfindChar_eq_none c b h]
  | cons x xs ih => simp [rfindChar, ih]

theorem parse_progress_of_not_mem (line : List Char) (h : '%' ∉ line) :
    parse_progress line = none := by
  simp [parse_progress, findChar_eq_none '%' line h]

theorem parse_progress_no_space (pre rest : List Char)
    (hp : '%' ∉ pre) (hs : ' ' ∉ pre) :
    parse_progress (pre ++ '%' :: rest) = none := by
  have hfind := findChar_append '%' pre rest hp
  have htake : (pre ++ '%' :: rest).take pre.length = pre := List.take_left _ _
  have hrfind := rfindChar_eq_none ' ' pre hs
  simp [parse_progress, hfind, htake, hrfind]

theorem parse_progress_split (a b rest : List Char)
    (ha : '%' ∉ a) (hb : '%' ∉ b) (hsb : ' ' ∉ b) :
    parse_progress (a ++ ' ' :: (b ++ '%' :: rest)) =
      (parseF32 (trim b)).map divByHundred := by
  have harr : a ++ ' ' :: (b ++ '%' :: rest) = (a ++ ' ' :: b) ++ '%' :: rest := by
    simp
  have hmem : '%' ∉ a ++ ' ' :: b := by
    simp only [List.mem_append, List.mem_cons, not_or]
    exact ⟨ha, by decide, hb⟩
  have hfind : findChar '%' (a ++ ' ' :: (b ++ '%' :: rest)) = some (a ++ ' ' :: b).length := by
    rw [harr]
    exact findChar_append _ _ _ hmem
  have htake : (a ++ ' ' :: (b ++ '%' :: rest)).take (a ++ ' ' :: b).length = a ++ ' ' :: b := by
    rw [harr]
    exact List.take_left _ _
  have hrfind : rfindChar ' ' (a ++ ' ' :: b) = some a.length := rfindChar_append _ _ _ hsb
  have hdrop : (a ++ ' ' :: b).drop (a.length + 1) = b := by
    have e1 : a ++ ' ' :: b = (a ++ [' ']) ++ b := by simp
    have e2 : a.length + 1 = (a ++ [' ']).length := by simp
    rw [e1, e2]
    exact List.drop_left _ _
  rw [parse_progress, hfind]
  simp only [htake, hrfind, hdrop]
  cases parseF32 (trim b) <;> rfl

theorem divByHundred_eq (p : ℚ) : divByHundred p = p / 100 := by
  rw [divByHundred, Rat.divInt_eq_div]
  push_cast
  rw [div_mul_eq_div_div, Rat.num_div_den]

theorem parse_progress_eq_bind (line : List Char) :
    parse_progress line =
      (candidateTok line).bind (fun t => (parseF32 (trim t)).map divByHundred) := by
  cases hf : findChar '%' line with
  | none => simp [parse_progress, candidateTok, hf]
  | some idx =>
    cases hr : rfindChar ' ' (line.take idx) with
    | none => simp [parse_progress, candidateTok, hf, hr]
    | some s =>
      cases hp : parseF32 (trim ((line.take idx).drop (s + 1))) with
      | none => simp [parse_progress, candidateTok, hf, hr, hp]
      | some p => simp [parse_progress, candidateTok, hf, hr, hp]

theorem processLine_history (st : AppState) (l : String) :
    (processLine st l).history = st.history := by
  rw [processLine]
  cases parse_progress l.data <;> rfl

theorem foldl_processLine_history (lines : List String) (st : AppState) :
    (lines.foldl processLine st).history = st.history := by
  induction lines generalizing st with
  | nil => rfl
  | cons l ls ih => rw [List.foldl_cons, ih, processLine_history]

theorem processLine_progress_bounds (st : AppState) (l : String)
    (h : ∀ p : ℚ, parse_progress l.data = some p → 0 ≤ p ∧ p ≤ 1)
    (h0 : 0 ≤ st.progress ∧ st.progress ≤ 1) :
    0 ≤ (processLine st l).progress ∧ (processLine st l).progress ≤ 1 := by
  cases hp : parse_progress l.data with
  | none => simpa [processLine, hp] using h0
  | some p => simpa [processLine, hp] using h p hp

theorem foldl_processLine_progress (lines : List String) (st : AppState)
    (h : ∀ l ∈ lines, ∀ p : ℚ, parse_progress l.data = some p → 0 ≤ p ∧ p ≤ 1)
    (h0 : 0 ≤ st.progress ∧ st.progress ≤ 1) :
    0 ≤ (lines.foldl processLine st).progress ∧ (lines.foldl processLine st).progress ≤ 1 := by
  induction lines generalizing st with
  | nil => exact h0
  | cons l ls ih =>
    rw [List.foldl_cons]
    exact ih (processLine st l) (fun x hx => h x (List.mem_cons_of_mem _ hx))
      (processLine_progress_bounds st l (h l (List.mem_cons_self _ _)) h0)

/-! ## Claim theorems -/

/-- Claim C1, counterexample: both lines contain a numeric token `42.0`
preceded by whitespace (a space resp. a tab) and terminated by `'%'`, yet
`parse_progress` returns nothing: the scan keys on the *first* `'%'` of
the line and only on the space character `' '`. -/
theorem parse_progress_whitespace_token_missed :
    parse_progress ("x% 42.0%".data) = none ∧
    parse_progress ("\t42.0%".data) = none :=
  ⟨by decide, by decide⟩

/-- Claim C1 (amended): for a line `pre ⧺ ' ' ⧺ tok ⧺ '%' ⧺ post` whose
first `'%'` is the one ending `tok`, where the token contains no space
and (after trimming) parses as the number `v`, `parse_progress` returns
`v / 100`. -/
theorem parse_progress_space_token_value (pre tok post : List Char) (v : ℚ)
    (h1 : '%' ∉ pre) (h2 : '%' ∉ tok) (h3 : ' ' ∉ tok)
    (h4 : parseF32 (trim tok) = some v) :
    parse_progress (pre ++ ' ' :: (tok ++ '%' :: post)) = some (v / 100) := by
  rw [parse_progress_split pre tok post h1 h2 h3, h4, Option.map_some', divByHundred_eq]

/-- Witness for C1's amended theorem at the spec's own example line. -/
theorem parse_progress_space_token_value_witness :
    parse_progress ("[download] ".data ++ ' ' :: ("42.0".data ++ '%' :: " of 10.00MiB".data)) =
      some ((42 : ℚ) / 100) :=
  parse_progress_space_token_value _ _ _ 42 (by decide) (by decide) (by decide) (by decide)

/-- Claim C2, counterexample: the code keys on the *first* `'%'`, not the
last one (`" 10.0% 20.0%"` parses to `10/100`, while the spec-worded
last-`'%'` scan gives `20/100`), and its boundary is only `' '`, not
whitespace (`"\t7.3%"` yields nothing, while the spec-worded scan accepts
the tab boundary). -/
theorem parse_progress_first_percent_not_last :
    parse_progress (" 10.0% 20.0%".data) = some (Rat.divInt 1 10) ∧
    parse_progress_specLast (" 10.0% 20.0%".data) = some (Rat.divInt 1 5) ∧
    parse_progress ("\t7.3%".data) = none ∧
    parse_progress_specLast ("\t7.3%".data) = some (Rat.divInt 73 1000) :=
  ⟨by decide, by decide, by decide, by decide⟩

/-- Claim C2 (amended): `parse_progress` locates the *first* `'%'`; with
no `'%'` it returns nothing; with no space before that `'%'` it returns
nothing; otherwise the candidate token is the substring between the last
space before the first `'%'` and that `'%'`, trimmed, parsed, and divided
by 100. -/
theorem parse_progress_scan_characterization :
    (∀ line : List Char, '%' ∉ line → parse_progress line = none) ∧
    (∀ pre rest : List Char, '%' ∉ pre → ' ' ∉ pre →
       parse_progress (pre ++ '%' :: rest) = none) ∧
    (∀ a b rest : List Char, '%' ∉ a → '%' ∉ b → ' ' ∉ b →
       parse_progress (a ++ ' ' :: (b ++ '%' :: rest)) =
         (parseF32 (trim b)).map (fun t => t / 100)) := by
  refine ⟨parse_progress_of_not_mem, parse_progress_no_space, ?_⟩
  intro a b rest ha hb hsb
  rw [parse_progress_split a b rest ha hb hsb]
  cases parseF32 (trim b) <;> simp [divByHundred_eq]

/-- Witness for C2's amended characterization on a concrete split line. -/
theorem parse_progress_scan_characterization_witness :
    parse_progress (['x'] ++ ' ' :: (['4', '2'] ++ '%' :: ['y'])) =
      (parseF32 (trim ['4', '2'])).map (fun t => t / 100) :=
  parse_progress_scan_characterization.2.2 ['x'] ['4', '2'] ['y']
    (by decide) (by decide) (by decide)

/-- Claim C3, counterexample: `parse_progress` is not bounded by `[0, 1]`:
the line `" 200%"` parses to `2`. -/
theorem parse_progress_exceeds_one :
    parse_progress (" 200%".data) = some 2 ∧ ¬ ((2 : ℚ) ≤ 1) :=
  ⟨by decide, by decide⟩

/-- Claim C3 (amended): every `parse_progress` result is the parsed token
value divided by 100 (with no clamping, so it can leave `[0, 1]`); and
provided every parsed value of the job's lines lies in `[0, 1]`, the
progress fraction stays in `[0, 1]` at every point of the job's lifetime:
after the reset, after each processed line, and at the terminal state,
for both exit outcomes and for launch failure. -/
theorem progress_fraction_bounds_conditional (st : AppState) (url : String)
    (fmt : Format) (lines : List String) (b : Bool)
    (h : ∀ l ∈ lines, ∀ p : ℚ, parse_progress l.data = some p → 0 ≤ p ∧ p ≤ 1) :
    (∀ line : List Char, ∀ q : ℚ, parse_progress line = some q →
       ∃ t, candidateTok line = some t ∧ ∃ v, parseF32 (trim t) = some v ∧ q = v / 100) ∧
    (∀ n : Nat,
       0 ≤ ((lines.take n).foldl processLine (startReset st)).progress ∧
       ((lines.take n).foldl processLine (startReset st)).progress ≤ 1) ∧
    (0 ≤ (runJob st url fmt (SpawnOutcome.ok lines b)).progress ∧
     (runJob st url fmt (SpawnOutcome.ok lines b)).progress ≤ 1) ∧
    (0 ≤ (runJob st url fmt SpawnOutcome.err).progress ∧
     (runJob st url fmt SpawnOutcome.err).progress ≤ 1) := by
  have h0 : 0 ≤ (startReset st).progress ∧ (startReset st).progress ≤ 1 := by
    constructor <;> norm_num [startReset]
  refine ⟨?_, ?_, ?_, ?_⟩
  · intro line q hq
    rw [parse_progress_eq_bind] at hq
    cases hc : candidateTok line with
    | none => rw [hc] at hq; exact absurd hq (by simp)
    | some t =>
      rw [hc] at hq
      simp only [Option.some_bind] at hq
      cases hp : parseF32 (trim t) with
      | none => rw [hp] at hq; exact absurd hq (by simp)
      | some v =>
        rw [hp] at hq
        simp only [Option.map_some'] at hq
        refine ⟨t, rfl, v, hp, ?_⟩
        rw [← divByHundred_eq]
        exact (Option.some.inj hq).symm
  · intro n
    exact foldl_processLine_progress (lines.take n) (startReset st)
      (fun l hl => h l (List.take_subset n lines hl)) h0
  · exact foldl_processLine_progress lines (startReset st) h h0
  · exact h0

/-- Witness for C3's amended invariant on a one-line job. -/
theorem progress_fraction_bounds_conditional_witness :
    0 ≤ (runJob defaultApp "u" Format.BestVideo (SpawnOutcome.ok [" 100%"] true)).progress ∧
    (runJob defaultApp "u" Format.BestVideo (SpawnOutcome.ok [" 100%"] true)).progress ≤ 1 :=
  (progress_fraction_bounds_conditional defaultApp "u" Format.BestVideo [" 100%"] true
    (by
      intro l hl p hp
      rw [List.mem_singleton] at hl
      subst hl
      rw [(by decide : parse_progress (" 100%".data) = some 1)] at hp
      injection hp with h
      subst h
      exact ⟨by decide, by decide⟩)).2.2.1

/-- Claim C4: the spec's four concrete cases, verified against the code:
`"[download]  42.0% of 10.00MiB"` yields `0.42`, `"[download] 100% of
10.00MiB"` yields `1`, `"Merging formats..."` yields nothing, and
`"  7.3%"` yields `0.073`. -/
theorem parse_progress_concrete_cases :
    parse_progress ("[download]  42.0% of 10.00MiB".data) = some 0.42 ∧
    parse_progress ("[download] 100% of 10.00MiB".data) = some 1 ∧
    parse_progress ("Merging formats...".data) = none ∧
    parse_progress ("  7.3%".data) = some 0.073 := by
  refine ⟨?_, by decide, by decide, ?_⟩
  · rw [(by rw [Rat.divInt_eq_div]; norm_num : (0.42 : ℚ) = Rat.divInt 21 50)]
    decide
  · rw [(by rw [Rat.divInt_eq_div]; norm_num : (0.073 : ℚ) = Rat.divInt 73 1000)]
    decide

/-- Claim C5: `parse_progress` is a total function (it returns an
`Option`, never raising); a line with no `'%'` yields nothing, and a line
whose candidate token before the `'%'` fails to parse as a float also
yields nothing. -/
theorem parse_progress_total_none_cases :
    (∀ line : List Char, '%' ∉ line → parse_progress line = none) ∧
    (∀ a b rest : List Char, '%' ∉ a → '%' ∉ b → ' ' ∉ b →
       parseF32 (trim b) = none →
       parse_progress (a ++ ' ' :: (b ++ '%' :: rest)) = none) := by
  refine ⟨parse_progress_of_not_mem, ?_⟩
  intro a b rest ha hb hsb hparse
  rw [parse_progress_split a b rest ha hb hsb, hparse]
  rfl

/-- Witness for C5 at a `'%'`-free line and at a non-numeric token. -/
theorem parse_progress_total_none_cases_witness :
    parse_progress ("Merging formats...".data) = none ∧
    parse_progress ([] ++ ' ' :: (['a', 'b', 'c'] ++ '%' :: [])) = none :=
  ⟨parse_progress_total_none_cases.1 _ (by decide),
   parse_progress_total_none_cases.2 [] ['a', 'b', 'c'] []
     (by decide) (by decide) (by decide) (by decide)⟩

/-- Claim C6: when the subprocess exits, exactly one `HistoryItem` is
appended — outcome `"Completed"` exactly when the exit status was a
success, `"Failed"` otherwise — and the status text is set to the
corresponding terminal message. -/
theorem runJob_exit_history_status (st : AppState) (url : String) (fmt : Format)
    (lines : List String) (success : Bool) :
    (runJob st url fmt (SpawnOutcome.ok lines success)).history =
      st.history ++
        [({ url := url, format := formatLabel fmt,
            status := if success then "Completed" else "Failed" } : HistoryItem)] ∧
    (runJob st url fmt (SpawnOutcome.ok lines success)).status =
      (if success then "✅ Download completed" else "❌ Download failed") := by
  constructor
  · have e : (runJob st url fmt (SpawnOutcome.ok lines success)).history =
        (lines.foldl processLine (startReset st)).history ++
          [({ url := url, format := formatLabel fmt,
              status := if success then "Completed" else "Failed" } : HistoryItem)] := rfl
    rw [e, foldl_processLine_history]
    rfl
  · rfl

/-- Claim C7: on a launch failure the status text becomes the error
message `"Failed to start yt-dlp"` and the history is unchanged (no entry
is appended); no exception propagates — `runJob` is a total function into
the state. -/
theorem runJob_launch_failure (st : AppState) (url : String) (fmt : Format) :
    (runJob st url fmt SpawnOutcome.err).status = "Failed to start yt-dlp" ∧
    (runJob st url fmt SpawnOutcome.err).history = st.history :=
  ⟨rfl, rfl⟩

/-- Claim C8: the argument list is deterministic in the request and has
the shape `--newline`, then `-P dir` only when a destination is given,
then the format flags (`BestVideo ↦ -f bestvideo+bestaudio/best
--merge-output-format mp4`, `AudioOnly ↦ -x --audio-format mp3`), with
the URL as the final argument. -/
theorem buildArgs_order (url : String) (fmt : Format) (dir : Option String) :
    buildArgs url fmt dir =
      ["--newline"] ++
        (match dir with | some d => ["-P", d] | none => []) ++
        (match fmt with
         | Format.BestVideo => ["-f", "bestvideo+bestaudio/best", "--merge-output-format", "mp4"]
         | Format.AudioOnly => ["-x", "--audio-format", "mp3"]) ++
        [url] ∧
    (buildArgs url fmt dir).head? = some "--newline" ∧
    (buildArgs url fmt dir).getLast? = some url := by
  refine ⟨?_, ?_, ?_⟩ <;> cases dir <;> cases fmt <;>
    simp [buildArgs, List.getLast?_concat]

/-- Claim C9, counterexample: immediately after the download click the
status is `"Starting download…"`, not `"Idle"` (the `"Idle"` text is only
the initial `Default` state, never restored before a job). -/
theorem startReset_status_not_idle :
    (startReset defaultApp).status = "Starting download…" ∧
    (startReset defaultApp).status ≠ "Idle" :=
  ⟨rfl, by decide⟩

/-- Claim C9 (amended): before the job starts — after `start` is invoked
and before any output line is processed — the state is reset to
`{"Starting download…", 0.0}` with the history untouched; the pair
`{"Idle", 0.0}` is the app's initial default state, not the pre-job
reset. -/
theorem startReset_spec (st : AppState) :
    (startReset st).status = "Starting download…" ∧
    (startReset st).progress = 0 ∧
    (startReset st).history = st.history ∧
    defaultApp.status = "Idle" ∧
    defaultApp.progress = 0 :=
  ⟨rfl, rfl, rfl, rfl, rfl⟩

/-- Claim C10: if no space `' '` occurs before the first `'%'`,
`parse_progress` returns nothing even when a numeric token precedes the
`'%'`: the boundary is only the space character, not tabs or the start of
the line, so `"7.3%"` (and `"\t7.3%"`) yield nothing while `"  7.3%"`
yields `0.073`. -/
theorem parse_progress_space_only_boundary :
    (∀ pre rest : List Char, '%' ∉ pre → ' ' ∉ pre →
       parse_progress (pre ++ '%' :: rest) = none) ∧
    parse_progress ("7.3%".data) = none ∧
    parse_progress ("\t7.3%".data) = none ∧
    parse_progress ("  7.3%".data) = some 0.073 := by
  refine ⟨parse_progress_no_space, by decide, by decide, ?_⟩
  rw [(by rw [Rat.divInt_eq_div]; norm_num : (0.073 : ℚ) = Rat.divInt 73 1000)]
  decide

/-- Witness for C10's universal part at the bare token `7.3%`. -/
theorem parse_progress_space_only_boundary_witness :
    parse_progress (['7', '.', '3'] ++ '%' :: ['a']) = none :=
  parse_progress_space_only_boundary.1 ['7', '.', '3'] ['a'] (by decide) (by decide)

